import Mathlib

/-!
# Verification of the call-interception engine (CryptoJS / JSEncrypt hooks)

Shallow embedding of the hook script (the defensive variant, the one that
installs the `makeNative` concealment registry).  JavaScript values are
modelled by the inductive `JsVal`; machine-level coercions (`ToUint32`,
strict equality, truthiness) are modelled explicitly.  Host primitives that
the script calls through (`btoa`, `decodeURIComponent`, the native
`Function.prototype.toString`) are modelled from their platform
specification; everything else is translated line by line from the source.
-/

set_option maxHeartbeats 1000000
set_option maxRecDepth 40000

namespace JsHook

/-- A JavaScript runtime value.  Objects carry their own (enumerable)
properties and their prototype; arrays carry their elements; functions are
identified by a numeric id (standing for reference identity) and carry
their decompiled source and a call behaviour (the analysed code only ever
invokes zero-argument `toString`-like members, whose receiver and argument
list do not matter for the modelled results). -/
inductive JsVal where
  | undefined
  | null
  | boolean (b : Bool)
  | num (n : Int)
  | str (s : String)
  | arr (elems : List JsVal)
  | obj (own : List (String × JsVal)) (proto : JsVal)
  | fnRet (id : Nat) (src : String) (ret : JsVal)
  | fnThrow (id : Nat) (src : String)
  deriving Inhabited

namespace JsVal

/-- JavaScript truthiness (`if (v)`).  Numbers are modelled as integers, so
`NaN` does not arise; the falsy values are `undefined`, `null`, `false`,
`0` and the empty string. -/
def truthy : JsVal → Bool
  | .undefined => false
  | .null => false
  | .boolean b => b
  | .num n => n != 0
  | .str s => s != ""
  | .arr _ => true
  | .obj _ _ => true
  | .fnRet _ _ _ => true
  | .fnThrow _ _ => true

/-- `typeof v === 'object'` (true for `null`, arrays and plain objects,
false for functions and primitives). -/
def typeofObject : JsVal → Bool
  | .null => true
  | .arr _ => true
  | .obj _ _ => true
  | _ => false

/-- Strict equality `===`.  For primitives this is value equality; for
objects and arrays it is reference equality, which the embedding
conservatively models as `false` (no analysed comparison compares two
objects); functions compare by id. -/
def jsStrictEq : JsVal → JsVal → Bool
  | .undefined, .undefined => true
  | .null, .null => true
  | .boolean a, .boolean b => a == b
  | .num a, .num b => a == b
  | .str a, .str b => a == b
  | .fnRet i _ _, .fnRet j _ _ => i == j
  | .fnThrow i _, .fnThrow j _ => i == j
  | _, _ => false

def isUndefined : JsVal → Bool
  | .undefined => true
  | _ => false

def isObjC : JsVal → Bool
  | .obj _ _ => true
  | _ => false

def isArrC : JsVal → Bool
  | .arr _ => true
  | _ => false

end JsVal

/-- Own-property lookup in a property list (first match, as property
tables have unique keys). -/
def getOwn : List (String × JsVal) → String → Option JsVal
  | [], _ => none
  | (k2, v) :: t, k => if k2 == k then some v else getOwn t k

/-- Parse a non-empty all-decimal-digit string (a JavaScript array index
key).  Defined by direct recursion so that it reduces in the kernel. -/
def decDigitsVal : List Char → Nat → Option Nat
  | [], acc => some acc
  | c :: t, acc =>
      if '0' ≤ c && c ≤ '9' then decDigitsVal t (acc * 10 + (c.toNat - 48))
      else none

def strIndexNat? (s : String) : Option Nat :=
  match s.data with
  | [] => none
  | l => decDigitsVal l 0

/-- `Object.hasOwn(v, k)` for non-nullish `v`.  Arrays own their index
properties and `length`; primitives own nothing that the analysed code
tests. -/
def hasOwnB : JsVal → String → Bool
  | .obj own _, k => (getOwn own k).isSome
  | .arr elems, k =>
      k == "length" ||
        (match strIndexNat? k with
         | some i => decide (i < elems.length)
         | none => false)
  | _, _ => false

/-- The `in` operator: property lookup along the prototype chain. -/
def hasPropChain : JsVal → String → Bool
  | .obj own proto, k => (getOwn own k).isSome || hasPropChain proto k
  | .arr elems, k =>
      k == "length" ||
        (match strIndexNat? k with
         | some i => decide (i < elems.length)
         | none => false)
  | _, _ => false

/-- Member read on a value without the built-in `Object.prototype`
fallback.  Absent properties read as `undefined`. -/
def getPropRaw : JsVal → String → JsVal
  | .obj own proto, k =>
      match getOwn own k with
      | some v => v
      | none => getPropRaw proto k
  | .arr elems, k =>
      if k == "length" then .num elems.length
      else
        match strIndexNat? k with
        | some i => elems.getD i .undefined
        | none => .undefined
  | _, _ => .undefined

/-- The id reserved for the built-in `Object.prototype.toString`. -/
def objDefaultToStringId : Nat := 0

/-- The built-in `Object.prototype.toString`, which returns
`"[object Object]"` for plain objects. -/
def objDefaultToString : JsVal :=
  .fnRet objDefaultToStringId "function toString() \x7b [native code] \x7d" (.str "[object Object]")

/-- Member read with the one built-in prototype member the analysed code
relies on: every plain object inherits `Object.prototype.toString`. -/
def getProp (v : JsVal) (k : String) : JsVal :=
  let r := getPropRaw v k
  if k == "toString" && r.isUndefined && v.isObjC then objDefaultToString else r

/-- `v.__proto__` for plain objects (the analysed code only walks the
prototype chains of plain objects; built-in prototypes of arrays and
primitives are not modelled). -/
def getProto : JsVal → JsVal
  | .obj _ proto => proto
  | _ => .undefined

/-- Exceptions that can arise inside the analysis code. -/
inductive JsErr where
  | typeError
  | uriError
  | invalidChar
  | userError
  deriving Repr, DecidableEq

/-- Member read that can throw: reading a property of `undefined` or
`null` raises a `TypeError`. -/
def getMemberE (v : JsVal) (k : String) : Except JsErr JsVal :=
  match v with
  | .undefined => .error .typeError
  | .null => .error .typeError
  | _ => .ok (getProp v k)

/-- `Object.hasOwn` that can throw: a nullish first argument raises a
`TypeError`. -/
def hasOwnE (v : JsVal) (k : String) : Except JsErr Bool :=
  match v with
  | .undefined => .error .typeError
  | .null => .error .typeError
  | _ => .ok (hasOwnB v k)

/-- Invoking a value as a function: calling a non-callable raises a
`TypeError`; a throwing callable raises its error. -/
def callE : JsVal → Except JsErr JsVal
  | .fnRet _ _ ret => .ok ret
  | .fnThrow _ _ => .error .userError
  | _ => .error .typeError

/-- JavaScript `ToUint32` on an integer. -/
def jsToUint32 (n : Int) : Nat := (n % 4294967296).toNat

/-- `ToUint32` on a value (`>>>` coerces its left operand).  Strings are
coerced via a simplified decimal `ToNumber`; the analysed word arrays hold
numbers, for which the coercion is exact. -/
def jsToUint32V : JsVal → Nat
  | .num n => jsToUint32 n
  | .boolean b => if b then 1 else 0
  | .str s =>
      match strIndexNat? s with
      | some n => jsToUint32 n
      | none => 0
  | _ => 0

/-- Source: `const byte = (words[i >>> 2] >>> (24 - (i % 4) * 8)) & 0xff;`
Out-of-range indices read `undefined`, which `ToUint32` coerces to 0. -/
def wordByteJs (elems : List JsVal) (i : Nat) : Nat :=
  (Nat.shiftRight (jsToUint32V (elems.getD (i % 4294967296 / 4) .undefined)) (24 - i % 4 * 8)) &&& 255

/-- The hex rendering loop: for each `i < n` push the two hex digits of
byte `i` (source: `hexChars.push((byte >>> 4).toString(16));
hexChars.push((byte & 0x0f).toString(16));`). -/
def hexPairs (f : Nat → Nat) (n : Nat) : List Char :=
  (List.range n).flatMap fun i => [Nat.digitChar (f i / 16), Nat.digitChar (f i % 16)]

/-- The digit list produced by `wordsToHex` on an actual array. -/
def wordsToHexList (elems : List JsVal) (sigBytes : Nat) : List Char :=
  hexPairs (wordByteJs elems) sigBytes

/-- Source `wordsToHex(words, sigBytes)`: a non-array `words` returns the
empty string (`if (!words || !Array.isArray(words)) return '';`), an array
is rendered byte by byte in big-endian 32-bit word order. -/
def wordsToHex (words : JsVal) (sigBytes : Nat) : String :=
  match words with
  | .arr elems => String.mk (wordsToHexList elems sigBytes)
  | _ => ""

/-- Source `get_sigBytes(size)`: a `switch` on strict equality mapping the
four known byte lengths to their bit-width labels, anything else to the
unknown label `"未知"`. -/
def get_sigBytes (size : JsVal) : String :=
  if size.jsStrictEq (.num 8) then "64bits"
  else if size.jsStrictEq (.num 16) then "128bits"
  else if size.jsStrictEq (.num 24) then "192bits"
  else if size.jsStrictEq (.num 32) then "256bits"
  else "未知"

/-! ## Hex parsing and base64 (source `hexToBase64`, host `btoa`) -/

/-- Value of one hexadecimal digit character (either case), as accepted by
`parseInt(·, 16)`. -/
def hexDigitVal (c : Char) : Option Nat :=
  if '0' ≤ c ∧ c ≤ '9' then some (c.toNat - '0'.toNat)
  else if 'a' ≤ c ∧ c ≤ 'f' then some (c.toNat - 'a'.toNat + 10)
  else if 'A' ≤ c ∧ c ≤ 'F' then some (c.toNat - 'A'.toNat + 10)
  else none

/-- Accumulate the maximal hex-digit prefix; `none` when no digit was
consumed (`parseInt` returns `NaN` there). -/
def hexPrefixVal : List Char → Option Nat → Option Nat
  | [], acc => acc
  | c :: rest, acc =>
      match hexDigitVal c with
      | some d => hexPrefixVal rest (some (acc.getD 0 * 16 + d))
      | none => acc

/-- Host `parseInt(s, 16)` on the short chunks the script produces: an
optional `0x`/`0X` prefix is stripped, then the maximal run of hex digits
is read; an empty run is `NaN`, modelled as `none`. -/
def jsParseIntHex (cs : List Char) : Option Nat :=
  match cs with
  | '0' :: 'x' :: rest => hexPrefixVal rest none
  | '0' :: 'X' :: rest => hexPrefixVal rest none
  | _ => hexPrefixVal cs none

/-- `String.fromCharCode` on one `parseInt` result: `ToUint16`, with `NaN`
mapping to code 0. -/
def jsFromCharCode (v : Option Nat) : Nat :=
  match v with
  | some n => n % 65536
  | none => 0

/-- The parse loop of `hexToBase64`: `hex.substr(i, 2)` chunks (a final
lone character for odd length), each through `parseInt(·, 16)` and
`String.fromCharCode`. -/
def hexToBytesJs : List Char → List Nat
  | [] => []
  | [c] => [jsFromCharCode (jsParseIntHex [c])]
  | c1 :: c2 :: rest => jsFromCharCode (jsParseIntHex [c1, c2]) :: hexToBytesJs rest

/-- The standard base64 alphabet. -/
def b64alphabet : List Char :=
  "ABCDEFGHIJKLMNOPQRSTUVWXYZabcdefghijklmnopqrstuvwxyz0123456789+/".data

def b64char (n : Nat) : Char := b64alphabet.getD n 'A'

def b64charVal (c : Char) : Option Nat := b64alphabet.findIdx? (· == c)

/-- Standard base64 of a byte list (the behaviour of the host `btoa` on a
latin-1 string), written with `/`, `%`, `*` for the bit operations:
`a / 4 = a >>> 2`, `a % 4 * 16 = (a & 3) << 4`, and so on. -/
def b64encode : List Nat → List Char
  | [] => []
  | [a] => [b64char (a / 4), b64char (a % 4 * 16), '=', '=']
  | [a, b] => [b64char (a / 4), b64char (a % 4 * 16 + b / 16), b64char (b % 16 * 4), '=']
  | a :: b :: c :: rest =>
      b64char (a / 4) :: b64char (a % 4 * 16 + b / 16) ::
        b64char (b % 16 * 4 + c / 64) :: b64char (c % 64) :: b64encode rest

/-- Standard base64 decoding, strict on padding placement (a terminal
`"=="` group yields one byte, a terminal `"="` group two, any other
four-character group three; `'='` is not in the alphabet, so a misplaced
pad makes the digit lookup fail). -/
def b64decode : List Char → Option (List Nat)
  | [] => some []
  | c0 :: c1 :: c2 :: c3 :: rest =>
      if rest.isEmpty && c2 == '=' && c3 == '=' then
        (b64charVal c0).bind fun d0 =>
          (b64charVal c1).map fun d1 => [d0 * 4 + d1 / 16]
      else if rest.isEmpty && c3 == '=' then
        (b64charVal c0).bind fun d0 =>
          (b64charVal c1).bind fun d1 =>
            (b64charVal c2).map fun d2 => [d0 * 4 + d1 / 16, d1 % 16 * 16 + d2 / 4]
      else
        (b64charVal c0).bind fun d0 =>
          (b64charVal c1).bind fun d1 =>
            (b64charVal c2).bind fun d2 =>
              (b64charVal c3).bind fun d3 =>
                (b64decode rest).map fun tail =>
                  (d0 * 4 + d1 / 16) :: (d1 % 16 * 16 + d2 / 4) :: (d2 % 4 * 64 + d3) :: tail
  | _ => none

def b64decodeStr (s : String) : Option (List Nat) := b64decode s.data

/-- Host `btoa`: throws (`InvalidCharacterError`) when a character code
exceeds 255, otherwise standard base64. -/
def btoaE (codes : List Nat) : Except JsErr String :=
  if codes.all (· ≤ 255) then .ok (String.mk (b64encode codes)) else .error .invalidChar

/-- Source `hexToBase64(hex)`: an empty (the only falsy) string input
short-circuits to `''`; otherwise parse hex pairs, `btoa` the character
string, and return `''` if `btoa` threw (the surrounding `try`/`catch`). -/
def hexToBase64 (hex : String) : String :=
  if hex = "" then ""
  else
    match btoaE (hexToBytesJs hex.data) with
    | .ok s => s
    | .error _ => ""

/-- The two lowercase hex digits denoting one byte (the encoding the
specification calls "the hex string that denotes the byte sequence"). -/
def byteHexChars (b : Nat) : List Char := [Nat.digitChar (b / 16), Nat.digitChar (b % 16)]

def bytesToHexChars (x : List Nat) : List Char := x.flatMap byteHexChars

def bytesToHex (x : List Nat) : String := String.mk (bytesToHexChars x)

/-! ## Percent escaping and `decodeURIComponent` (source `formatKey`) -/

/-- One character of the class `[0-9a-f]` (the regex in
`hexKey.replace(/[0-9a-f]{2}/g, '%$&')`). -/
def isHexLower (c : Char) : Bool := ('0' ≤ c && c ≤ '9') || ('a' ≤ c && c ≤ 'f')

/-- The global regex replace `/[0-9a-f]{2}/g → '%$&'`: scan left to right,
each non-overlapping pair of lowercase hex digits gains a leading `%`. -/
def percentEscapeList : List Char → List Char
  | c1 :: c2 :: rest =>
      if isHexLower c1 && isHexLower c2 then '%' :: c1 :: c2 :: percentEscapeList rest
      else c1 :: percentEscapeList (c2 :: rest)
  | l => l

def percentEscape (s : String) : String := String.mk (percentEscapeList s.data)

/-- Tokens of a URI-encoded string: literal characters and `%XX` bytes. -/
inductive UriTok where
  | lit (c : Char)
  | byte (b : Nat)

/-- Tokenize for `decodeURIComponent`: a `%` must be followed by two hex
digits (else `URIError`). -/
def uriTokens : List Char → Except JsErr (List UriTok)
  | [] => .ok []
  | '%' :: c1 :: c2 :: rest =>
      match hexDigitVal c1, hexDigitVal c2 with
      | some h, some l => do
          let t ← uriTokens rest
          .ok (.byte (h * 16 + l) :: t)
      | _, _ => .error .uriError
  | '%' :: _ => .error .uriError
  | c :: rest => do
      let t ← uriTokens rest
      .ok (.lit c :: t)

/-- A UTF-8 continuation byte. -/
def isCont (b : Nat) : Bool := 128 ≤ b && b ≤ 191

/-- Decode the `%XX` byte runs as strict UTF-8 (overlong forms, stray
continuations, surrogate code points and values above U+10FFFF are
rejected, as `decodeURIComponent` does); literal characters pass through
and cannot continue a multi-byte sequence. -/
def uriDecodeToks : List UriTok → Option (List Char)
  | [] => some []
  | .lit c :: rest => (uriDecodeToks rest).map (c :: ·)
  | .byte b :: rest =>
      if b ≤ 127 then (uriDecodeToks rest).map (Char.ofNat b :: ·)
      else if 194 ≤ b && b ≤ 223 then
        match rest with
        | .byte c1 :: rest2 =>
            if isCont c1 then
              (uriDecodeToks rest2).map (Char.ofNat ((b - 192) * 64 + (c1 - 128)) :: ·)
            else none
        | _ => none
      else if 224 ≤ b && b ≤ 239 then
        match rest with
        | .byte c1 :: .byte c2 :: rest2 =>
            if isCont c1 && isCont c2 then
              let cp := (b - 224) * 4096 + (c1 - 128) * 64 + (c2 - 128)
              if 2048 ≤ cp && ¬ (55296 ≤ cp && cp ≤ 57343) then
                (uriDecodeToks rest2).map (Char.ofNat cp :: ·)
              else none
            else none
        | _ => none
      else if 240 ≤ b && b ≤ 244 then
        match rest with
        | .byte c1 :: .byte c2 :: .byte c3 :: rest2 =>
            if isCont c1 && isCont c2 && isCont c3 then
              let cp := (b - 240) * 262144 + (c1 - 128) * 4096 + (c2 - 128) * 64 + (c3 - 128)
              if 65536 ≤ cp && cp ≤ 1114111 then
                (uriDecodeToks rest2).map (Char.ofNat cp :: ·)
              else none
            else none
        | _ => none
      else none

/-- Host `decodeURIComponent`, modelled from its specification. -/
def decodeURIComponentE (s : String) : Except JsErr String := do
  let toks ← uriTokens s.data
  match uriDecodeToks toks with
  | some cs => .ok (String.mk cs)
  | none => .error .uriError

/-- The `rawString` view of `formatKey`:
`try { strKey = decodeURIComponent(hexKey.replace(/[0-9a-f]{2}/g, '%$&')); }
catch (e) { strKey = hexKey; }`. -/
def rawStringOfHex (hexKey : String) : Except JsErr String :=
  match decodeURIComponentE (percentEscape hexKey) with
  | .ok s => .ok s
  | .error _ => .ok hexKey

/-! ## `formatKey` -/

/-- The three co-equal views `formatKey` returns. -/
structure KeyData where
  string : JsVal
  hex : JsVal
  base64 : String

/-- The loop bound coercion of `i < sigBytes` when `sigBytes` is an
arbitrary value (a non-numeric bound compares `NaN`, so the loop body
never runs). -/
def jsLoopBound : JsVal → Nat
  | .num n => if 0 ≤ n then n.toNat else 0
  | .boolean b => if b then 1 else 0
  | .str s => (strIndexNat? s).getD 0
  | _ => 0

/-- The `else if (keyObj.words && keyObj.sigBytes)` fallback of
`formatKey`; when neither branch fires `hexKey` keeps its initial `''`. -/
def wordsFallback (keyObj : JsVal) : JsVal :=
  let w := getProp keyObj "words"
  let sb := getProp keyObj "sigBytes"
  if w.truthy && sb.truthy then .str (wordsToHex w (jsLoopBound sb)) else .str ""

/-- `hexToBase64` applied to the possibly non-string `hexKey` variable: a
non-string value either fails the `!hex` truthiness test or has no
`length`, so the parse loop runs zero times and `btoa('')` is `''`. -/
def hexToBase64V : JsVal → String
  | .str s => hexToBase64 s
  | _ => ""

/-- The guarded `rawString` computation on the possibly non-string
`hexKey`: calling `.replace` on a non-string throws, and the `catch`
assigns `strKey = hexKey`. -/
def rawStringV : JsVal → Except JsErr JsVal
  | .str s => (rawStringOfHex s).map .str
  | v => .ok v

/-- Source `formatKey(keyObj)`.  A falsy argument returns the empty views;
otherwise `hexKey` is `keyObj.toString()` when that is present and not the
generic `"[object Object]"` (the condition calls `toString` once and, on
success, the assignment calls it again), else the word/byte-length
rendering.  Errors raised by a user-supplied `toString` propagate: nothing
here catches them. -/
def formatKeyE (keyObj : JsVal) : Except JsErr KeyData := do
  if ¬ keyObj.truthy then
    pure ⟨.str "", .str "", ""⟩
  else
    let ts := getProp keyObj "toString"
    let hexKey ←
      if ts.truthy then do
        let r1 ← callE ts
        if ¬ r1.jsStrictEq (.str "[object Object]") then
          callE ts
        else
          pure (wordsFallback keyObj)
      else
        pure (wordsFallback keyObj)
    let b64 := hexToBase64V hexKey
    let strKey ← rawStringV hexKey
    pure ⟨strKey, hexKey, b64⟩

/-! ## Caller-source heuristics (the regexes of the encrypt branch) -/

/-- Substring occurrence in a character list (`indexOf(sub) !== -1`). -/
def listContainsSub (sub : List Char) : List Char → Bool
  | [] => sub.isEmpty
  | c :: rest => sub.isPrefixOf (c :: rest) || listContainsSub sub rest

def strContains (s sub : String) : Bool := listContainsSub sub.data s.data

/-- The regex class `\s` (common ASCII whitespace; the analysed sources
are ASCII). -/
def isWsJs (c : Char) : Bool :=
  c == ' ' || c == '\t' || c == '\n' || c == '\r' || c.toNat == 11 || c.toNat == 12

def isIdentStart (c : Char) : Bool :=
  ('A' ≤ c && c ≤ 'Z') || ('a' ≤ c && c ≤ 'z') || c == '_' || c == '$'

def isIdentCont (c : Char) : Bool := isIdentStart c || ('0' ≤ c && c ≤ '9')

/-- Consume an exact literal prefix. -/
def dropLit : List Char → List Char → Option (List Char)
  | [], l => some l
  | c :: cs, d :: l => if c == d then dropLit cs l else none
  | _ :: _, [] => none

/-- The anchored regex
`/^\s*function(?:\s*)?\s*[A-Za-z_$][\w$]*\s*\([^)]*\)\s*\{/` — each
quantified class is disjoint from what follows it, so greedy maximal-munch
scanning is exactly the regex semantics. -/
def matchNamedFn (s : String) : Bool :=
  match dropLit "function".data (s.data.dropWhile isWsJs) with
  | none => false
  | some r1 =>
      match r1.dropWhile isWsJs with
      | [] => false
      | c :: r3 =>
          if isIdentStart c then
            match (r3.dropWhile isIdentCont).dropWhile isWsJs with
            | '(' :: r6 =>
                match r6.dropWhile (fun d => d != ')') with
                | ')' :: r8 =>
                    match r8.dropWhile isWsJs with
                    | '{' :: _ => true
                    | _ => false
                | _ => false
            | _ => false
          else false

/-- The anchored regex `/^\s*function\s*\(\s*\)\s*\{/`. -/
def matchAnonFn (s : String) : Bool :=
  match dropLit "function".data (s.data.dropWhile isWsJs) with
  | none => false
  | some r1 =>
      match r1.dropWhile isWsJs with
      | '(' :: r2 =>
          match r2.dropWhile isWsJs with
          | ')' :: r3 =>
              match r3.dropWhile isWsJs with
              | '{' :: _ => true
              | _ => false
          | _ => false
      | _ => false

/-- The encrypt branch's caller-source test (source:
`callerStr.indexOf('function()') !== -1 || named-regex || anon-regex`). -/
def encShape (callerStr : String) : Bool :=
  strContains callerStr "function()" || matchNamedFn callerStr || matchAnonFn callerStr

/-! ## Structural shape predicates -/

def encryptProps : List String :=
  ["ciphertext", "key", "iv", "algorithm", "mode", "padding", "blockSize", "formatter"]

/-- Source `hasEncryptProp(obj)`: a truthy object-typed value carrying all
eight fields (the `in` operator, so inherited fields count). -/
def hasEncryptProp (v : JsVal) : Bool :=
  v.truthy && v.typeofObject && encryptProps.all (hasPropChain v)

def decryptProps : List String := ["sigBytes", "words"]

/-- Source `hasDecryptProp(obj)`. -/
def hasDecryptProp (v : JsVal) : Bool :=
  v.truthy && v.typeofObject && decryptProps.all (hasPropChain v)

def rsaProps : List String :=
  ["constructor", "getPrivateBaseKey", "getPrivateBaseKeyB64", "getPrivateKey",
   "getPublicBaseKey", "getPublicBaseKeyB64", "getPublicKey", "parseKey",
   "parsePropertiesFrom"]

/-- Source `hasRSAProp(obj)`. -/
def hasRSAProp (v : JsVal) : Bool :=
  v.truthy && v.typeofObject && rsaProps.all (hasPropChain v)

/-! ## The interceptors -/

/-- One emitted log line (the `console.log` calls, abstracted as the
structured fields the emission sink receives). -/
inductive LogEvent where
  | symEncBanner
  | symDecBanner
  | keyString (v : JsVal)
  | keyHex (v : JsVal)
  | keyBase64 (s : String)
  | ivString (v : JsVal)
  | ivHex (v : JsVal)
  | ivBase64 (s : String)
  | keyLength (s : String)
  | opMode (v : JsVal)
  | padMode (v : JsVal)
  | cipherText (v : JsVal)

/-- The process-wide mutable state the engine patches: the `_nativeMap`
concealment registry (wrapper id ↦ stored original value) and a counter
allocating fresh function identities for created wrappers. -/
structure HookState where
  reg : List (Nat × JsVal)
  nextId : Nat

/-- The initial state: the registry already holds the spoofed
`Function.prototype.toString`, `apply` and `call` wrappers in the running
engine, but nothing the lazily-patched targets could collide with; id 0 is
reserved for the built-in `Object.prototype.toString`. -/
def hookInit : HookState := ⟨[], 1⟩

def fnIdOf : JsVal → Option Nat
  | .fnRet i _ _ => some i
  | .fnThrow i _ => some i
  | _ => none

/-- `_nativeMap.has(v)` (a `WeakMap` keyed by reference; only functions
are ever inserted). -/
def nativeHas (st : HookState) (v : JsVal) : Bool :=
  match fnIdOf v with
  | some i => st.reg.any (fun p => p.1 == i)
  | none => false

/-- Assignment to an existing own property. -/
def setOwnProp (own : List (String × JsVal)) (k : String) (v : JsVal) :
    List (String × JsVal) :=
  own.map fun p => if p.1 == k then (p.1, v) else p

/-- `a0.__proto__.__proto__[k] = v`, the mutation the lazy patches
perform, expressed as a rebuild of the receiver value. -/
def setProtoProtoProp (a0 : JsVal) (k : String) (v : JsVal) : JsVal :=
  match a0 with
  | .obj own (.obj own2 (.obj own3 p3)) =>
      .obj own (.obj own2 (.obj (setOwnProp own3 k v) p3))
  | _ => a0

/-- Decompiled source of the finalize wrapper the hash branch installs. -/
def hookFinalizeSrc : String :=
  "function () \x7b [debug] finalize wrapper \x7d"

def encryptHookSrc : String := "function () \x7b [debug] RSA encrypt wrapper \x7d"

def decryptHookSrc : String := "function () \x7b [debug] RSA decrypt wrapper \x7d"

/-- The hash/HMAC branch of `applyHook` (source guarded by its own
`try`/`catch`; every operation it performs is total in this model, so the
catch is vacuous): on the structural match, and only when the discovered
`finalize` is not already registered, replace it by a fresh registered
wrapper. -/
def hashBranch (st : HookState) (argCount : Nat) (a0 a1 : JsVal) :
    JsVal × HookState :=
  if argCount == 2 && a0.truthy && a1.truthy && a0.typeofObject && a1.typeofObject then
    if (getProto a0).truthy && hasOwnB (getProto a0) "$super" &&
        hasOwnB (getProto a0) "_doFinalize" then
      if (getProto (getProto a0)).truthy && hasOwnB (getProto (getProto a0)) "finalize" then
        if nativeHas st (getProp (getProto (getProto a0)) "finalize") then (a0, st)
        else
          (setProtoProtoProp a0 "finalize" (.fnRet st.nextId hookFinalizeSrc .undefined),
           { reg := (st.nextId, getProp (getProto (getProto a0)) "finalize") :: st.reg,
             nextId := st.nextId + 1 })
      else (a0, st)
    else (a0, st)
  else (a0, st)

/-- An interception of `Function.prototype.apply`: `this` is the function
being applied (the hook reads only its decompiled source), `argCount` is
`arguments.length`, `a0`/`a1` are `arguments[0]`/`arguments[1]`. -/
structure ApplyCall where
  callerSrc : String
  argCount : Nat
  a0 : JsVal
  a1 : JsVal

/-- First guard of the encrypt branch (source line
`arguments.length === 2 && arguments[0] && arguments[1] && typeof
arguments[1] === 'object' && arguments[1].length === 1 &&
hasEncryptProp(arguments[1][0])`). -/
def encCond (c : ApplyCall) : Bool :=
  c.argCount == 2 && c.a0.truthy && c.a1.truthy && c.a1.typeofObject &&
    (getProp c.a1 "length").jsStrictEq (.num 1) && hasEncryptProp (getProp c.a1 "0")

/-- First guard of the decrypt branch (`arguments[1].length === 3 &&
hasDecryptProp(arguments[1][1])`). -/
def decCond (c : ApplyCall) : Bool :=
  c.argCount == 2 && c.a0.truthy && c.a1.truthy && c.a1.typeofObject &&
    (getProp c.a1 "length").jsStrictEq (.num 3) && hasDecryptProp (getProp c.a1 "1")

/-- The complete symmetric-encrypt classification. -/
def isSymEncryptMatch (c : ApplyCall) : Bool :=
  encCond c && hasOwnB c.a0 "$super" && hasOwnB c.a1 "callee" && encShape c.callerSrc

/-- The complete symmetric-decrypt classification, exactly as the code
tests it: the `CipherDecryptShape` is required of `arguments[1][1]` (the
second positional value), the caller's source must not contain the
substring `'function()'`, and `arguments[1][0]` must be strictly equal to
the discriminant `2`. -/
def isSymDecryptMatch (c : ApplyCall) : Bool :=
  decCond c && hasOwnB c.a0 "$super" && hasOwnB c.a1 "callee" &&
    !(strContains c.callerSrc "function()") && (getProp c.a1 "0").jsStrictEq (.num 2)

/-- Helper for a `try { … } catch (e) {}` whose body yields log lines. -/
def jsTryList (x : Except JsErr (List LogEvent)) : List LogEvent :=
  match x with
  | .ok l => l
  | .error _ => []

/-- Body of the encrypt branch (after all three guards), translated
statement by statement; only the ciphertext probe sits in a `try`. -/
def encBody (c : ApplyCall) : Except JsErr (List LogEvent) := do
  let enc := getProp c.a1 "0"
  let key := getProp enc "key"
  let kd ← formatKeyE key
  let evKey := [LogEvent.symEncBanner, .keyString kd.string, .keyHex kd.hex, .keyBase64 kd.base64]
  let iv := getProp enc "iv"
  let evIv ←
    if iv.truthy then do
      let ivd ← formatKeyE iv
      pure [LogEvent.ivString ivd.string, .ivHex ivd.hex, .ivBase64 ivd.base64]
    else pure []
  let evLen :=
    if key.truthy && hasOwnB key "sigBytes" then
      [LogEvent.keyLength (get_sigBytes (getProp key "sigBytes"))]
    else []
  let mode := getProp enc "mode"
  let evMode ←
    if mode.truthy && hasOwnB mode "Encryptor" then do
      let encr ← getMemberE mode "Encryptor"
      let pb ← getMemberE encr "processBlock"
      pure [LogEvent.opMode pb]
    else pure []
  let pad := getProp enc "padding"
  let evPad := if pad.truthy then [LogEvent.padMode pad] else []
  let evCt := jsTryList (do
    let sup ← getMemberE c.a0 "$super"
    let ts ← getMemberE sup "toString"
    let et ← callE ts
    pure (if ¬ et.jsStrictEq (.str "[object Object]") then [LogEvent.cipherText et] else []))
  pure (evKey ++ evIv ++ evLen ++ evMode ++ evPad ++ evCt)

/-- Body of the decrypt branch.  The iv probe reproduces the source text
`Object.hasOwn(arguments[1][2], "iv") && arguments[1][2][2][2]["iv"]`
verbatim, including the double `[2]` indexing; nothing in this branch is
inside a `try`. -/
def decBody (c : ApplyCall) : Except JsErr (List LogEvent) := do
  let kd ← formatKeyE (getProp c.a1 "1")
  let evKey := [LogEvent.symDecBanner, .keyString kd.string, .keyHex kd.hex, .keyBase64 kd.base64]
  let cfg := getProp c.a1 "2"
  let hIv ← hasOwnE cfg "iv"
  let evIv ←
    if hIv then do
      let t1 ← getMemberE cfg "2"
      let t2 ← getMemberE t1 "2"
      let t3 ← getMemberE t2 "iv"
      if t3.truthy then do
        let ivv ← getMemberE cfg "iv"
        let ivd ← formatKeyE ivv
        pure [LogEvent.ivString ivd.string, .ivHex ivd.hex, .ivBase64 ivd.base64]
      else pure []
    else pure []
  let hM ← hasOwnE cfg "mode"
  let evMode ←
    if hM then do
      let m ← getMemberE cfg "mode"
      if m.truthy then do
        let encr ← getMemberE m "Encryptor"
        let pb ← getMemberE encr "processBlock"
        pure [LogEvent.opMode pb]
      else pure []
    else pure []
  let hP ← hasOwnE cfg "padding"
  let evPad ←
    if hP then do
      let p ← getMemberE cfg "padding"
      pure (if p.truthy then [LogEvent.padMode p] else [])
    else pure []
  pure (evKey ++ evIv ++ evMode ++ evPad)

/-- The analysis side channel of `applyHook`, before the unconditional
`return temp_apply.call(this, ...arguments)`.  An `.error` result is an
exception escaping into the instrumented program's call path. -/
def applyHookAnalysis (st : HookState) (c : ApplyCall) :
    Except JsErr (List LogEvent × JsVal × HookState) :=
  if encCond c then
    if hasOwnB c.a0 "$super" && hasOwnB c.a1 "callee" then
      if encShape c.callerSrc then do
        let evs ← encBody c
        pure (evs, c.a0, st)
      else pure ([], c.a0, st)
    else pure ([], c.a0, st)
  else if decCond c then
    if hasOwnB c.a0 "$super" && hasOwnB c.a1 "callee" then
      if !(strContains c.callerSrc "function()") &&
          (getProp c.a1 "0").jsStrictEq (.num 2) then do
        let evs ← decBody c
        pure (evs, c.a0, st)
      else pure ([], c.a0, st)
    else pure ([], c.a0, st)
  else
    pure ([], (hashBranch st c.argCount c.a0 c.a1).1, (hashBranch st c.argCount c.a0 c.a1).2)

/-- Membership of `__proto__` (an accessor on `Object.prototype`) holds
for every plain object and array whose chain reaches `Object.prototype`;
the analysed receivers are such. -/
def protoMemberVisible (v : JsVal) : Bool := v.isObjC || v.isArrC

/-- The first guarded patch of the call hook
(`if (!_nativeMap.has(p2.encrypt)) { … p2.encrypt = makeNative(encryptHook, temp_encrypt) }`). -/
def rsaPatchEncrypt (st : HookState) (a0 : JsVal) : JsVal × HookState :=
  if nativeHas st (getProp (getProto (getProto a0)) "encrypt") then (a0, st)
  else
    (setProtoProtoProp a0 "encrypt" (.fnRet st.nextId encryptHookSrc .undefined),
     { reg := (st.nextId, getProp (getProto (getProto a0)) "encrypt") :: st.reg,
       nextId := st.nextId + 1 })

/-- The second guarded patch of the call hook, reading the `decrypt` slot
after the `encrypt` assignment. -/
def rsaPatchDecrypt (st : HookState) (a0 : JsVal) : JsVal × HookState :=
  if nativeHas st (getProp (getProto (getProto a0)) "decrypt") then (a0, st)
  else
    (setProtoProtoProp a0 "decrypt" (.fnRet st.nextId decryptHookSrc .undefined),
     { reg := (st.nextId, getProp (getProto (getProto a0)) "decrypt") :: st.reg,
       nextId := st.nextId + 1 })

/-- The analysis side channel of `callHook` (the JSEncrypt RSA hook): on
the structural match, lazily patch `encrypt` and then `decrypt` on the
receiver's second prototype, each guarded by the registry.  The whole
probe is inside `try`/`catch` and is total here; no log line is emitted at
patch time (the wrappers log when later invoked). -/
def callHookAnalysis (st : HookState) (argCount : Nat) (a0 : JsVal) :
    JsVal × HookState :=
  if argCount == 1 && a0.truthy && (getProto a0).truthy && (getProto a0).typeofObject &&
      hasRSAProp (getProto a0) then
    if protoMemberVisible (getProto a0) && (getProto (getProto a0)).truthy &&
        hasOwnB (getProto (getProto a0)) "encrypt" &&
        hasOwnB (getProto (getProto a0)) "decrypt" then
      rsaPatchDecrypt (rsaPatchEncrypt st a0).2 (rsaPatchEncrypt st a0).1
    else (a0, st)
  else (a0, st)

/-! ## The concealment layer (`makeNative` and the spoofed `toString`) -/

/-- A function object as the concealment layer sees it: reference
identity, decompiled source, the `name` and `length` properties and their
configurability (fresh function expressions have both configurable). -/
structure FnObj where
  id : Nat
  src : String
  name : String
  length : Nat
  nameConfigurable : Bool
  lengthConfigurable : Bool
  deriving Repr, DecidableEq

/-- The wrapper ↦ original registry of the concealment layer. -/
abbrev NativeReg := List (Nat × FnObj)

/-- Source `makeNative(hookFunc, originalFunc)`:
`try { defineProperty(hookFunc,'name',…); defineProperty(hookFunc,'length',…) }
catch {}` — a throw at `name` skips `length` as well — then
`_nativeMap.set(hookFunc, originalFunc)` unconditionally. -/
def makeNative (hookFunc originalFunc : FnObj) (reg : NativeReg) : FnObj × NativeReg :=
  let patched :=
    if hookFunc.nameConfigurable then
      if hookFunc.lengthConfigurable then
        { hookFunc with name := originalFunc.name, length := originalFunc.length }
      else { hookFunc with name := originalFunc.name }
    else hookFunc
  (patched, (hookFunc.id, originalFunc) :: reg)

/-- The replacement `Function.prototype.toString`: a registered wrapper
decompiles to `_toString.call(_nativeMap.get(this))`, the native
decompilation of its stored original; anything else decompiles
natively. -/
def toStringHook (reg : NativeReg) (f : FnObj) : String :=
  match reg.lookup f.id with
  | some orig => orig.src
  | none => f.src

/-! ## Concrete calls used by the theorems -/

/-- A CryptoJS word-array-shaped object: `{sigBytes: 4, words: [0x01020304]}`. -/
def decShapeA : JsVal := .obj [("sigBytes", .num 4), ("words", .arr [.num 16909060])] .undefined

def plainObjA : JsVal := .obj [] .undefined

/-- A receiver carrying the `$super` marker. -/
def recvSuper : JsVal := .obj [("$super", .obj [] .undefined)] .undefined

/-- An arguments object `(2, wordArray, cfg)` whose third slot owns an
`iv` field: the exact situation the decrypt branch probes with
`arguments[1][2][2][2]["iv"]`. -/
def containerCrash : JsVal :=
  .obj [("length", .num 3), ("callee", .fnRet 44 "callee" .undefined),
        ("0", .num 2), ("1", decShapeA), ("2", .obj [("iv", .str "aa")] .undefined)] .undefined

/-- An APPLY interception that satisfies every decrypt-branch guard. -/
def decryptCrashCall : ApplyCall := ⟨"x => y", 2, recvSuper, containerCrash⟩

/-- Arguments object whose THIRD slot has the decrypt shape but whose
second does not. -/
def containerCxA : JsVal :=
  .obj [("length", .num 3), ("callee", .fnRet 45 "callee" .undefined),
        ("0", .num 2), ("1", plainObjA), ("2", decShapeA)] .undefined

def cxA : ApplyCall := ⟨"x => y", 2, recvSuper, containerCxA⟩

/-- Arguments object whose second and third slots both have the decrypt
shape. -/
def containerCxB : JsVal :=
  .obj [("length", .num 3), ("callee", .fnRet 46 "callee" .undefined),
        ("0", .num 2), ("1", decShapeA), ("2", decShapeA)] .undefined

/-- Caller whose source matches the named-function encrypt-path regex but
does not contain the substring `'function()'`. -/
def cxB : ApplyCall := ⟨"function foo(a) \x7b return 1; \x7d", 2, recvSuper, containerCxB⟩

/-- Scenario A of the specification: key with `sigBytes: 16`, full
`CipherEncryptShape`, `$super` receiver, anonymous zero-argument caller. -/
def keyObj16 : JsVal :=
  .obj [("sigBytes", .num 16), ("words", .arr [.num 1, .num 2, .num 3, .num 4])] .undefined

def ivObjA : JsVal := .obj [("sigBytes", .num 0), ("words", .arr [])] .undefined

def modeObjA : JsVal :=
  .obj [("Encryptor", .obj [("processBlock", .fnRet 41 "pb" .undefined)] .undefined)] .undefined

def encObjA : JsVal :=
  .obj [("ciphertext", .str ""), ("key", keyObj16), ("iv", ivObjA),
        ("algorithm", .obj [] .undefined), ("mode", modeObjA), ("padding", .obj [] .undefined),
        ("blockSize", .num 4), ("formatter", .obj [] .undefined)] .undefined

def recvA : JsVal :=
  .obj [("$super", .obj [("toString", .fnRet 42 "ts" (.str "[object Object]"))] .undefined)] .undefined

def containerA : JsVal :=
  .obj [("length", .num 1), ("callee", .fnRet 43 "callee" .undefined), ("0", encObjA)] .undefined

def scenarioA : ApplyCall := ⟨"function()", 2, recvA, containerA⟩

/-- A hash/HMAC-shaped receiver: prototype owns `$super` and
`_doFinalize`, second prototype owns `finalize`. -/
def finOrig : JsVal := .fnRet 47 "function (messageUpdate) \x7b native finalize \x7d" .undefined

def hashRecv : JsVal :=
  .obj []
    (.obj [("$super", .obj [] .undefined), ("_doFinalize", .fnRet 48 "df" .undefined)]
      (.obj [("finalize", finOrig)] .undefined))

/-- The symmetric-decrypt conditions as the specification sentence states
them: exactly 3 positional values, the FIRST strictly equal to the
discriminant 2, the THIRD carrying the `CipherDecryptShape`, the receiver
carrying `$super`, a genuine arguments object (the own-`callee` test), and
a caller source that does not match the encrypt-path shape (the full
three-alternative test). -/
def symDecryptClaimCond (c : ApplyCall) : Bool :=
  c.argCount == 2 && c.a0.truthy && c.a1.truthy && c.a1.typeofObject &&
    (getProp c.a1 "length").jsStrictEq (.num 3) &&
    (getProp c.a1 "0").jsStrictEq (.num 2) &&
    hasDecryptProp (getProp c.a1 "2") &&
    hasOwnB c.a0 "$super" && hasOwnB c.a1 "callee" &&
    !(encShape c.callerSrc)

/-- The amended symmetric-decrypt conditions: as the claim, except that
the `CipherDecryptShape` is required of the SECOND positional value and
the caller-source exclusion is only the `'function()'` substring test (the
first encrypt-shape alternative). -/
def symDecryptAmendedCond (c : ApplyCall) : Bool :=
  c.argCount == 2 && c.a0.truthy && c.a1.truthy && c.a1.typeofObject &&
    (getProp c.a1 "length").jsStrictEq (.num 3) &&
    (getProp c.a1 "0").jsStrictEq (.num 2) &&
    hasDecryptProp (getProp c.a1 "1") &&
    hasOwnB c.a0 "$super" && hasOwnB c.a1 "callee" &&
    !(strContains c.callerSrc "function()")

/-- The lowercase hexadecimal digit characters. -/
def hexDigits : List Char := "0123456789abcdef".data

/-! ## Shared lemmas -/

theorem hexPairs_length (f : Nat → Nat) (n : Nat) : (hexPairs f n).length = 2 * n := by
  induction n with
  | zero => rfl
  | succ k ih =>
      unfold hexPairs at ih ⊢
      rw [List.range_succ, List.flatMap_append, List.length_append, ih]
      simp [Nat.mul_succ]

theorem hexPairs_getElem (f : Nat → Nat) (n i : Nat) (h : i < n) :
    (hexPairs f n)[2 * i]? = some (Nat.digitChar (f i / 16)) ∧
    (hexPairs f n)[2 * i + 1]? = some (Nat.digitChar (f i % 16)) := by
  induction n with
  | zero => exact absurd h (Nat.not_lt_zero i)
  | succ k ih =>
      have hlen : (hexPairs f k).length = 2 * k := hexPairs_length f k
      unfold hexPairs at ih hlen ⊢
      rw [List.range_succ, List.flatMap_append]
      rcases Nat.lt_or_ge i k with hik | hik
      · have h1 := ih hik
        rw [List.getElem?_append_left (by omega), List.getElem?_append_left (by omega)]
        exact h1
      · have hik2 : i = k := by omega
        subst hik2
        rw [List.getElem?_append_right (by omega), List.getElem?_append_right (by omega),
          hlen]
        simp [Nat.two_mul]

theorem setOwnProp_cons_eq (k2 : String) (w : JsVal) (t : List (String × JsVal))
    (k : String) (v : JsVal) (h : (k2 == k) = true) :
    setOwnProp ((k2, w) :: t) k v = (k2, v) :: setOwnProp t k v := by
  have e : k2 = k := by simpa using h
  subst e
  simp [setOwnProp]

theorem setOwnProp_cons_ne (k2 : String) (w : JsVal) (t : List (String × JsVal))
    (k : String) (v : JsVal) (h : (k2 == k) = false) :
    setOwnProp ((k2, w) :: t) k v = (k2, w) :: setOwnProp t k v := by
  have e : ¬ k2 = k := by simpa using h
  simp [setOwnProp, e]

theorem getOwn_setOwnProp_isSome (own : List (String × JsVal)) (k k' : String) (v : JsVal) :
    (getOwn (setOwnProp own k v) k').isSome = (getOwn own k').isSome := by
  induction own with
  | nil => rfl
  | cons p t ih =>
      obtain ⟨k2, w⟩ := p
      cases h3 : (k2 == k) with
      | true =>
          rw [setOwnProp_cons_eq _ _ _ _ _ h3]
          cases h2 : (k2 == k') with
          | true => simp [getOwn, h2]
          | false => simp [getOwn, h2, ih]
      | false =>
          rw [setOwnProp_cons_ne _ _ _ _ _ h3]
          cases h2 : (k2 == k') with
          | true => simp [getOwn, h2]
          | false => simp [getOwn, h2, ih]

theorem getOwn_setOwnProp_self (own : List (String × JsVal)) (k : String) (v : JsVal)
    (h : (getOwn own k).isSome = true) : getOwn (setOwnProp own k v) k = some v := by
  induction own with
  | nil => simp [getOwn] at h
  | cons p t ih =>
      obtain ⟨k2, w⟩ := p
      cases h3 : (k2 == k) with
      | true =>
          rw [setOwnProp_cons_eq _ _ _ _ _ h3]
          simp [getOwn, h3]
      | false =>
          rw [setOwnProp_cons_ne _ _ _ _ _ h3]
          simp only [getOwn, h3, Bool.false_eq_true, if_false] at h ⊢
          exact ih h

theorem getOwn_setOwnProp_ne (own : List (String × JsVal)) (k k' : String) (v : JsVal)
    (h : (k' == k) = false) : getOwn (setOwnProp own k v) k' = getOwn own k' := by
  induction own with
  | nil => rfl
  | cons p t ih =>
      obtain ⟨k2, w⟩ := p
      cases h3 : (k2 == k) with
      | true =>
          have e3 : k2 = k := by simpa using h3
          have e4 : ¬ k' = k := by simpa using h
          have h2 : (k2 == k') = false := by
            subst e3
            simpa using fun he => e4 he.symm
          rw [setOwnProp_cons_eq _ _ _ _ _ h3]
          simp [getOwn, h2, ih]
      | false =>
          rw [setOwnProp_cons_ne _ _ _ _ _ h3]
          cases h2 : (k2 == k') with
          | true => simp [getOwn, h2]
          | false => simp [getOwn, h2, ih]

theorem digitChar_mem_hexDigits (m : Nat) (h : m < 16) : Nat.digitChar m ∈ hexDigits := by
  interval_cases m <;> decide

theorem wordByteJs_le (elems : List JsVal) (i : Nat) : wordByteJs elems i ≤ 255 :=
  Nat.and_le_right

/-! ## C3 — big-endian word packing of the hex extraction -/

/-- C3: for every word array and significant-byte count `n`, the hex
extraction renders byte `i` (`i < n`) as the two hex digits of
`(word[i >> 2] >>> (24 - (i % 4) * 8)) & 0xFF` — big-endian 32-bit word
packing (`i >> 2` is `i / 4`; the hypothesis `i < 2^32` discharges the
`ToUint32` the JavaScript shift applies to `i`); in particular the word
array `[0x01020304]` with `sigBytes = 3` extracts to `"010203"`. -/
theorem wordsToHex_big_endian_layout (elems : List JsVal) (n i : Nat)
    (h : i < n) (h32 : i < 4294967296) :
    (wordsToHex (.arr elems) n).data[2 * i]? =
      some (Nat.digitChar ((Nat.shiftRight (jsToUint32V (elems.getD (i / 4) .undefined))
        (24 - i % 4 * 8) &&& 255) / 16)) ∧
    (wordsToHex (.arr elems) n).data[2 * i + 1]? =
      some (Nat.digitChar ((Nat.shiftRight (jsToUint32V (elems.getD (i / 4) .undefined))
        (24 - i % 4 * 8) &&& 255) % 16)) ∧
    wordsToHex (.arr [.num 16909060]) 3 = "010203" := by
  have hb : wordByteJs elems i =
      Nat.shiftRight (jsToUint32V (elems.getD (i / 4) .undefined)) (24 - i % 4 * 8) &&& 255 := by
    simp [wordByteJs, Nat.mod_eq_of_lt h32]
  have hp := hexPairs_getElem (wordByteJs elems) n i h
  have h1 := hp.1
  have h2 := hp.2
  rw [hb] at h1 h2
  exact ⟨h1, h2, rfl⟩

/-- Witness for C3 at `words = [0x01020304, 0x05060708]`, `n = 8`,
`i = 5`: byte 5 is `0x06`. -/
theorem wordsToHex_big_endian_layout_witness :
    (wordsToHex (.arr [.num 16909060, .num 84281096]) 8).data[10]? = some '0' ∧
    (wordsToHex (.arr [.num 16909060, .num 84281096]) 8).data[11]? = some '6' ∧
    wordsToHex (.arr [.num 16909060]) 3 = "010203" := by
  have h := wordsToHex_big_endian_layout [.num 16909060, .num 84281096] 8 5
    (by decide) (by decide)
  exact ⟨h.1, h.2.1, h.2.2⟩

/-! ## C10 — totality and shape of `wordsToHex` -/

/-- C10: `wordsToHex` is total: a non-array `words` yields `""`; an array
with byte count `n` yields exactly `2 * n` characters, all lowercase hex
digits, and word indices beyond the array's end contribute the byte
`"00"` (the out-of-range read is `undefined`, coerced to 0) instead of an
error. -/
theorem wordsToHex_total_shape :
    (∀ (v : JsVal) (n : Nat), v.isArrC = false → wordsToHex v n = "") ∧
    (∀ (elems : List JsVal) (n : Nat), (wordsToHex (.arr elems) n).length = 2 * n) ∧
    (∀ (elems : List JsVal) (n : Nat) (c : Char),
        c ∈ (wordsToHex (.arr elems) n).data → c ∈ hexDigits) ∧
    (∀ (elems : List JsVal) (n i : Nat), i < n → elems.length ≤ i % 4294967296 / 4 →
        (wordsToHex (.arr elems) n).data[2 * i]? = some '0' ∧
        (wordsToHex (.arr elems) n).data[2 * i + 1]? = some '0') := by
  refine ⟨?_, ?_, ?_, ?_⟩
  · intro v n hv
    cases v <;> simp_all [wordsToHex, JsVal.isArrC]
  · intro elems n
    exact hexPairs_length (wordByteJs elems) n
  · intro elems n c hc
    have hc2 : c ∈ hexPairs (wordByteJs elems) n := hc
    unfold hexPairs at hc2
    obtain ⟨i, _, hmem⟩ := List.mem_flatMap.mp hc2
    have hle := wordByteJs_le elems i
    simp only [List.mem_cons, List.not_mem_nil, or_false] at hmem
    rcases hmem with h | h <;> subst h <;>
      exact digitChar_mem_hexDigits _ (by omega)
  · intro elems n i hi hoob
    have hz : wordByteJs elems i = 0 := by
      unfold wordByteJs
      rw [List.getD_eq_default _ _ hoob]
      simp [jsToUint32V]
    have hp := hexPairs_getElem (wordByteJs elems) n i hi
    have h1 := hp.1
    have h2 := hp.2
    rw [hz] at h1 h2
    exact ⟨h1, h2⟩

/-- Witness for C10: a non-array input, a hex-digit membership, and an
out-of-range index at concrete values. -/
theorem wordsToHex_total_shape_witness :
    wordsToHex (.num 5) 2 = "" ∧
    '1' ∈ hexDigits ∧
    (wordsToHex (.arr [.num 1]) 5).data[8]? = some '0' ∧
    (wordsToHex (.arr [.num 1]) 5).data[9]? = some '0' := by
  refine ⟨wordsToHex_total_shape.1 (.num 5) 2 rfl, ?_, ?_, ?_⟩
  · exact wordsToHex_total_shape.2.2.1 [.num 1] 4 '1' (by decide)
  · exact (wordsToHex_total_shape.2.2.2 [.num 1] 5 4 (by decide) (by decide)).1
  · exact (wordsToHex_total_shape.2.2.2 [.num 1] 5 4 (by decide) (by decide)).2

/-! ## C6 — key-length classification -/

/-- C6: the key-length classification maps declared byte-length 8, 16,
24, 32 to the four bit-width labels and every other value (under the
`switch`'s strict equality) to the unknown label `"未知"`; and scenario A
(full encrypt shape, key with `sigBytes = 16`) is reported with key-length
classification `"128bits"`. -/
theorem get_sigBytes_mapping :
    get_sigBytes (.num 8) = "64bits" ∧ get_sigBytes (.num 16) = "128bits" ∧
    get_sigBytes (.num 24) = "192bits" ∧ get_sigBytes (.num 32) = "256bits" ∧
    (∀ v : JsVal, v.jsStrictEq (.num 8) = false → v.jsStrictEq (.num 16) = false →
        v.jsStrictEq (.num 24) = false → v.jsStrictEq (.num 32) = false →
        get_sigBytes v = "未知") ∧
    (∃ evs rest, applyHookAnalysis hookInit scenarioA = .ok (evs, rest) ∧
        (evs.any fun e =>
          match e with
          | LogEvent.keyLength s => s == "128bits"
          | _ => false) = true) := by
  refine ⟨rfl, rfl, rfl, rfl, ?_, ?_⟩
  · intro v h8 h16 h24 h32
    simp [get_sigBytes, h8, h16, h24, h32]
  · exact ⟨_, _, rfl, rfl⟩

/-- Witness for C6's universally quantified part at the value 7. -/
theorem get_sigBytes_mapping_witness : get_sigBytes (.num 7) = "未知" :=
  get_sigBytes_mapping.2.2.2.2.1 (.num 7) rfl rfl rfl rfl

/-! ## C5 — the rawString view never throws -/

/-- C5: the `rawString` computation of `formatKey` never throws: it
percent-escapes the hex pairs and URI-decodes, and whenever the decode
fails the returned string is the hex string itself; `rawStringV` is the
slot `formatKey` stores. -/
theorem rawString_never_throws (hexKey : String) :
    (∃ s, rawStringOfHex hexKey = .ok s) ∧
    (∀ e, decodeURIComponentE (percentEscape hexKey) = .error e →
        rawStringOfHex hexKey = .ok hexKey) ∧
    rawStringV (.str hexKey) = (rawStringOfHex hexKey).map .str := by
  refine ⟨?_, ?_, rfl⟩
  · cases hd : decodeURIComponentE (percentEscape hexKey) with
    | error e => exact ⟨hexKey, by simp [rawStringOfHex, hd]⟩
    | ok s => exact ⟨s, by simp [rawStringOfHex, hd]⟩
  · intro e he
    simp [rawStringOfHex, he]

/-- Witness for C5 at `"ff"`, whose escaped form `"%ff"` is not valid
UTF-8, so the decode fails and the fallback returns `"ff"`. -/
theorem rawString_never_throws_witness : rawStringOfHex "ff" = .ok "ff" :=
  (rawString_never_throws "ff").2.1 JsErr.uriError rfl

/-! ## C1 — an analysis failure escapes the decrypt branch -/

/-- C1 (code bug): `decryptCrashCall` satisfies every symmetric-decrypt
guard, yet the analysis side channel of the apply hook terminates with an
uncaught `TypeError`: the iv probe
`Object.hasOwn(arguments[1][2], "iv") && arguments[1][2][2][2]["iv"]`
reads property `2` of the third positional value (which is `undefined`)
and then dereferences that `undefined`, and the symmetric branches of the
apply hook are not wrapped in any `try`/`catch`, so the exception
propagates into the instrumented program's call path. -/
theorem decrypt_branch_exception_escapes :
    isSymDecryptMatch decryptCrashCall = true ∧
    applyHookAnalysis hookInit decryptCrashCall = .error .typeError :=
  ⟨rfl, rfl⟩

/-! ## C2 — which positional value carries the decrypt shape -/

/-- C2 counterexample: `cxA` satisfies the claim's conditions (decrypt
shape on the THIRD positional value, caller not matching the full
encrypt-path shape) but the code does not classify it; `cxB` is classified
by the code although the claim's conditions reject it (its caller source
matches the named-function encrypt-path alternative, which the code does
not test on the decrypt path).  Together they refute the claim's "exactly
when" in both directions. -/
theorem symDecrypt_third_slot_counterexample :
    symDecryptClaimCond cxA = true ∧ isSymDecryptMatch cxA = false ∧
    symDecryptClaimCond cxB = false ∧ isSymDecryptMatch cxB = true :=
  ⟨rfl, rfl, rfl, rfl⟩

/-- C2 amended: a call is classified as symmetric decrypt exactly when
the container holds exactly 3 positional values with the first strictly
equal to 2, the SECOND carries the `CipherDecryptShape`, the receiver owns
`$super`, the container owns `callee`, and the caller's decompiled source
does not contain the substring `'function()'` (only the first
encrypt-shape alternative is excluded). -/
theorem symDecrypt_classification_amended (c : ApplyCall) :
    isSymDecryptMatch c = symDecryptAmendedCond c := by
  rw [Bool.eq_iff_iff]
  simp only [isSymDecryptMatch, decCond, symDecryptAmendedCond, Bool.and_eq_true,
    Bool.not_eq_true']
  tauto

/-! ## C4 — hex to base64 conversion against standard base64 -/

theorem hexDigitVal_digitChar : ∀ m : Nat, m < 16 →
    hexDigitVal (Nat.digitChar m) = some m := by decide

theorem jsParseIntHex_pair : ∀ b : Nat, b < 256 →
    jsParseIntHex [Nat.digitChar (b / 16), Nat.digitChar (b % 16)] = some b := by decide

theorem b64charVal_b64char : ∀ m : Nat, m < 64 →
    b64charVal (b64char m) = some m := by decide

theorem b64char_ne_pad : ∀ m : Nat, m < 64 → (b64char m == '=') = false := by decide

theorem hexToBytesJs_bytesToHex : ∀ (x : List Nat), (∀ b ∈ x, b < 256) →
    hexToBytesJs (bytesToHexChars x) = x
  | [], _ => rfl
  | b :: t, h => by
      have hb : b < 256 := h b (List.mem_cons_self b t)
      have ih := hexToBytesJs_bytesToHex t fun y hy => h y (List.mem_cons_of_mem _ hy)
      show hexToBytesJs
          (Nat.digitChar (b / 16) :: Nat.digitChar (b % 16) :: bytesToHexChars t) = b :: t
      simp only [hexToBytesJs]
      rw [jsParseIntHex_pair b hb, ih]
      show b % 65536 :: t = b :: t
      rw [Nat.mod_eq_of_lt (by omega)]

theorem b64decode_b64encode : ∀ (x : List Nat), (∀ b ∈ x, b < 256) →
    b64decode (b64encode x) = some x
  | [], _ => rfl
  | [a], h => by
      have ha : a < 256 := h a (List.mem_cons_self a [])
      show ((b64charVal (b64char (a / 4))).bind fun d0 =>
          Option.map (fun d1 => [d0 * 4 + d1 / 16]) (b64charVal (b64char (a % 4 * 16)))) =
        some [a]
      rw [b64charVal_b64char (a / 4) (by omega), b64charVal_b64char (a % 4 * 16) (by omega)]
      show some [a / 4 * 4 + a % 4 * 16 / 16] = some [a]
      have e1 : a / 4 * 4 + a % 4 * 16 / 16 = a := by omega
      rw [e1]
  | [a, b], h => by
      have ha : a < 256 := h a (List.mem_cons_self a [b])
      have hb : b < 256 := h b (List.mem_cons_of_mem _ (List.mem_cons_self b []))
      show b64decode [b64char (a / 4), b64char (a % 4 * 16 + b / 16),
          b64char (b % 16 * 4), '='] = some [a, b]
      simp only [b64decode]
      rw [b64char_ne_pad (b % 16 * 4) (by omega)]
      simp only [Bool.and_false, Bool.false_and, Bool.false_eq_true, if_false]
      rw [b64charVal_b64char (a / 4) (by omega),
        b64charVal_b64char (a % 4 * 16 + b / 16) (by omega),
        b64charVal_b64char (b % 16 * 4) (by omega)]
      show some [a / 4 * 4 + (a % 4 * 16 + b / 16) / 16,
          (a % 4 * 16 + b / 16) % 16 * 16 + b % 16 * 4 / 4] = some [a, b]
      have e1 : a / 4 * 4 + (a % 4 * 16 + b / 16) / 16 = a := by omega
      have e2 : (a % 4 * 16 + b / 16) % 16 * 16 + b % 16 * 4 / 4 = b := by omega
      rw [e1, e2]
  | a :: b :: c :: rest, h => by
      have ha : a < 256 := h a (by simp)
      have hb : b < 256 := h b (by simp)
      have hc : c < 256 := h c (by simp)
      have ih := b64decode_b64encode rest fun y hy => h y (by simp [hy])
      show b64decode (b64char (a / 4) :: b64char (a % 4 * 16 + b / 16) ::
          b64char (b % 16 * 4 + c / 64) :: b64char (c % 64) :: b64encode rest) =
        some (a :: b :: c :: rest)
      simp only [b64decode]
      rw [b64char_ne_pad (b % 16 * 4 + c / 64) (by omega), b64char_ne_pad (c % 64) (by omega)]
      simp only [Bool.and_false, Bool.false_eq_true, if_false]
      rw [b64charVal_b64char (a / 4) (by omega),
        b64charVal_b64char (a % 4 * 16 + b / 16) (by omega),
        b64charVal_b64char (b % 16 * 4 + c / 64) (by omega),
        b64charVal_b64char (c % 64) (by omega), ih]
      show some ((a / 4 * 4 + (a % 4 * 16 + b / 16) / 16) ::
          ((a % 4 * 16 + b / 16) % 16 * 16 + (b % 16 * 4 + c / 64) / 4) ::
          ((b % 16 * 4 + c / 64) % 4 * 64 + c % 64) :: rest) =
        some (a :: b :: c :: rest)
      have e1 : a / 4 * 4 + (a % 4 * 16 + b / 16) / 16 = a := by omega
      have e2 : (a % 4 * 16 + b / 16) % 16 * 16 + (b % 16 * 4 + c / 64) / 4 = b := by omega
      have e3 : (b % 16 * 4 + c / 64) % 4 * 64 + c % 64 = c := by omega
      rw [e1, e2, e3]

/-- C4: for every byte sequence, converting its hex rendering with the
script's `hexToBase64` yields exactly the standard base64 of the bytes,
and standard base64 decoding of that output recovers the byte sequence
(round trip). -/
theorem hex_base64_round_trip (x : List Nat) (h : ∀ b ∈ x, b < 256) :
    hexToBase64 (bytesToHex x) = String.mk (b64encode x) ∧
    b64decodeStr (hexToBase64 (bytesToHex x)) = some x := by
  have henc : hexToBase64 (bytesToHex x) = String.mk (b64encode x) := by
    cases x with
    | nil => rfl
    | cons b t =>
        have hnz : bytesToHex (b :: t) ≠ "" := by
          intro he
          have h2 := congrArg String.data he
          have h3 : bytesToHexChars (b :: t) = ([] : List Char) := h2
          simp [bytesToHexChars, byteHexChars] at h3
        unfold hexToBase64
        rw [if_neg hnz]
        have hdata : (bytesToHex (b :: t)).data = bytesToHexChars (b :: t) := rfl
        rw [hdata, hexToBytesJs_bytesToHex _ h]
        have hall : ((b :: t).all fun y => y ≤ 255) = true := by
          simp only [List.all_eq_true, decide_eq_true_eq]
          exact fun y hy => by have := h y hy; omega
        unfold btoaE
        rw [if_pos hall]
  refine ⟨henc, ?_⟩
  rw [henc]
  show b64decode (b64encode x) = some x
  exact b64decode_b64encode x h

/-- Witness for C4 at the byte sequence `[1, 2, 3]`. -/
theorem hex_base64_round_trip_witness :
    hexToBase64 (bytesToHex [1, 2, 3]) = "AQID" ∧
    b64decodeStr (hexToBase64 (bytesToHex [1, 2, 3])) = some [1, 2, 3] := by
  have h := hex_base64_round_trip [1, 2, 3] (by decide)
  exact ⟨h.1, h.2⟩

/-! ## C7 — reflection invariance of the concealment layer -/

/-- C7: every wrapper registered with its original in the concealment
registry decompiles, under the spoofed `toString`, to exactly the
original's decompiled source; and `makeNative` — whose wrapper arguments
are fresh function expressions, so their `name` and `length` are
configurable — registers the wrapper and copies the original's declared
name and arity onto it. -/
theorem makeNative_reflection_invariance :
    (∀ (reg : NativeReg) (f orig : FnObj), reg.lookup f.id = some orig →
        toStringHook reg f = orig.src) ∧
    (∀ (hookFunc originalFunc : FnObj) (reg : NativeReg),
        hookFunc.nameConfigurable = true → hookFunc.lengthConfigurable = true →
        (makeNative hookFunc originalFunc reg).2.lookup hookFunc.id = some originalFunc ∧
        toStringHook (makeNative hookFunc originalFunc reg).2
            (makeNative hookFunc originalFunc reg).1 = originalFunc.src ∧
        (makeNative hookFunc originalFunc reg).1.name = originalFunc.name ∧
        (makeNative hookFunc originalFunc reg).1.length = originalFunc.length) := by
  constructor
  · intro reg f orig hl
    simp [toStringHook, hl]
  · intro hookFunc originalFunc reg hn hl
    unfold makeNative toStringHook
    simp [hn, hl, List.lookup]

def hookFnW : FnObj := ⟨10, "function () \x7b wrapper body \x7d", "", 0, true, true⟩

def origFnW : FnObj := ⟨11, "function apply() \x7b [native code] \x7d", "apply", 2, true, true⟩

/-- Witness for C7 at a concrete wrapper/original pair. -/
theorem makeNative_reflection_invariance_witness :
    (makeNative hookFnW origFnW []).2.lookup 10 = some origFnW ∧
    toStringHook (makeNative hookFnW origFnW []).2 (makeNative hookFnW origFnW []).1 =
      "function apply() \x7b [native code] \x7d" ∧
    (makeNative hookFnW origFnW []).1.name = "apply" ∧
    (makeNative hookFnW origFnW []).1.length = 2 := by
  have h := makeNative_reflection_invariance.2 hookFnW origFnW [] rfl rfl
  exact ⟨h.1, h.2.1, h.2.2.1, h.2.2.2⟩

/-! ## C9 — on which paths hash/HMAC matching happens -/

/-- C9 counterexample: a CALL-path interception receiving two argument
values, both objects, whose receiver satisfies the full hash/HMAC receiver
shape, is not classified and triggers no patch: the call hook tests only
the RSA shape (and requires `arguments.length === 1`), so the receiver and
the registry come back unchanged and no wrapper is installed. -/
theorem hash_match_call_path_counterexample :
    hashRecv.typeofObject = true ∧ plainObjA.typeofObject = true ∧
    hasOwnB (getProto hashRecv) "$super" = true ∧
    hasOwnB (getProto hashRecv) "_doFinalize" = true ∧
    hasOwnB (getProto (getProto hashRecv)) "finalize" = true ∧
    callHookAnalysis hookInit 2 hashRecv = (hashRecv, hookInit) :=
  ⟨rfl, rfl, rfl, rfl, rfl, rfl⟩

/-- C9 amended: hash/HMAC-finalize matching happens only on the APPLY
path.  When the apply hook receives exactly two argument values (the
receiver and the argument container), both objects, the encrypt and
decrypt signatures do not fire, the receiver's prototype owns `$super` and
`_doFinalize`, its second prototype owns `finalize`, and that `finalize`
is not yet registered, the matcher patches `finalize` with a fresh
registered wrapper whose original is the discovered method. -/
theorem hash_match_apply_path_only (st : HookState) (c : ApplyCall)
    (henc : encCond c = false) (hdec : decCond c = false)
    (hg : (c.argCount == 2 && c.a0.truthy && c.a1.truthy &&
        c.a0.typeofObject && c.a1.typeofObject) = true)
    (hp : ((getProto c.a0).truthy && hasOwnB (getProto c.a0) "$super" &&
        hasOwnB (getProto c.a0) "_doFinalize") = true)
    (hp2 : ((getProto (getProto c.a0)).truthy &&
        hasOwnB (getProto (getProto c.a0)) "finalize") = true)
    (hreg : nativeHas st (getProp (getProto (getProto c.a0)) "finalize") = false) :
    applyHookAnalysis st c =
      .ok ([], setProtoProtoProp c.a0 "finalize" (.fnRet st.nextId hookFinalizeSrc .undefined),
        { reg := (st.nextId, getProp (getProto (getProto c.a0)) "finalize") :: st.reg,
          nextId := st.nextId + 1 }) := by
  unfold applyHookAnalysis hashBranch
  simp only [henc, hdec, Bool.false_eq_true, if_false]
  rw [if_pos hg, if_pos hp, if_pos hp2, if_neg (by simp [hreg])]
  rfl

def hashCallW : ApplyCall := ⟨"function hashCaller() \x7b\x7d", 2, hashRecv, plainObjA⟩

/-- Witness for C9's amended theorem at a concrete hash-shaped APPLY
interception. -/
theorem hash_match_apply_path_only_witness :
    applyHookAnalysis hookInit hashCallW =
      .ok ([], setProtoProtoProp hashRecv "finalize" (.fnRet 1 hookFinalizeSrc .undefined),
        { reg := [(1, finOrig)], nextId := 2 }) := by
  have h := hash_match_apply_path_only hookInit hashCallW rfl rfl rfl rfl rfl rfl
  exact h

/-! ## C8 — idempotence of the lazy patches -/

theorem truthy_getProto_obj (v : JsVal) (h : (getProto v).truthy = true) :
    ∃ own p, v = .obj own p := by
  cases v <;> first
    | exact ⟨_, _, rfl⟩
    | simp [getProto, JsVal.truthy] at h

theorem hasOwnB_obj_shape (v : JsVal) (k : String) (hk1 : (k == "length") = false)
    (hk2 : strIndexNat? k = none) (h : hasOwnB v k = true) : ∃ own p, v = .obj own p := by
  cases v <;> first
    | exact ⟨_, _, rfl⟩
    | simp [hasOwnB, hk1, hk2] at h

theorem hasPropChain_outer_set (own2 own3 : List (String × JsVal)) (p3 : JsVal)
    (k : String) (v : JsVal) (prop : String) :
    hasPropChain (.obj own2 (.obj (setOwnProp own3 k v) p3)) prop =
      hasPropChain (.obj own2 (.obj own3 p3)) prop := by
  simp [hasPropChain, getOwn_setOwnProp_isSome]

theorem hasRSAProp_outer_set (own2 own3 : List (String × JsVal)) (p3 : JsVal)
    (k : String) (v : JsVal) :
    hasRSAProp (.obj own2 (.obj (setOwnProp own3 k v) p3)) =
      hasRSAProp (.obj own2 (.obj own3 p3)) := by
  simp [hasRSAProp, rsaProps, List.all_cons, List.all_nil, hasPropChain_outer_set,
    JsVal.truthy, JsVal.typeofObject]

theorem getProp_obj_set_self (own3 : List (String × JsVal)) (p3 : JsVal)
    (k : String) (v : JsVal) (hk : (k == "toString") = false)
    (h : (getOwn own3 k).isSome = true) :
    getProp (.obj (setOwnProp own3 k v) p3) k = v := by
  have hs := getOwn_setOwnProp_self own3 k v h
  simp [getProp, getPropRaw, hs, hk]

theorem getProp_obj_set_ne (own3 : List (String × JsVal)) (p3 : JsVal)
    (k : String) (v : JsVal) (k' : String) (h : (k' == k) = false) :
    getProp (.obj (setOwnProp own3 k v) p3) k' = getProp (.obj own3 p3) k' := by
  simp [getProp, getPropRaw, getOwn_setOwnProp_ne own3 k k' v h, JsVal.isObjC]

theorem nativeHas_cons (reg : List (Nat × JsVal)) (n1 n2 : Nat) (pr : Nat × JsVal)
    (v : JsVal) (h : nativeHas ⟨reg, n1⟩ v = true) :
    nativeHas ⟨pr :: reg, n2⟩ v = true := by
  unfold nativeHas at h ⊢
  cases hf : fnIdOf v with
  | none => simp [hf] at h
  | some i =>
      simp only [hf] at h ⊢
      simp only [List.any_cons, h, Bool.or_true]

theorem nativeHas_head (reg : List (Nat × JsVal)) (n2 fid : Nat) (v : JsVal)
    (src : String) (ret : JsVal) :
    nativeHas ⟨(fid, v) :: reg, n2⟩ (.fnRet fid src ret) = true := by
  simp [nativeHas, fnIdOf, List.any_cons]

/-- When the discovered `finalize` is already registered, the hash branch
performs zero mutation, whatever the other guards say. -/
theorem hashBranch_noop (st : HookState) (n : Nat) (a0 a1 : JsVal)
    (h : nativeHas st (getProp (getProto (getProto a0)) "finalize") = true) :
    hashBranch st n a0 a1 = (a0, st) := by
  unfold hashBranch
  repeat' split
  all_goals rfl

/-- When both discovered RSA methods are already registered, the call
hook performs zero mutation, whatever the other guards say. -/
theorem callHook_noop (st : HookState) (n : Nat) (a0 : JsVal)
    (hE : nativeHas st (getProp (getProto (getProto a0)) "encrypt") = true)
    (hD : nativeHas st (getProp (getProto (getProto a0)) "decrypt") = true) :
    callHookAnalysis st n a0 = (a0, st) := by
  have he : rsaPatchEncrypt st a0 = (a0, st) := by
    unfold rsaPatchEncrypt
    rw [if_pos hE]
  have hd : rsaPatchDecrypt st a0 = (a0, st) := by
    unfold rsaPatchDecrypt
    rw [if_pos hD]
  unfold callHookAnalysis
  split
  · split
    · rw [he, hd]
    · rfl
  · rfl

/-- C8: patch installation is idempotent for both lazily-patched paths:
running the hash branch, or the call hook's encrypt/decrypt patching, a
second time on the receiver and registry produced by the first run is a
no-op — the state and receiver come back unchanged, so at most one patch
record is ever created per discovered original. -/
theorem lazy_patch_idempotent :
    (∀ (st : HookState) (n : Nat) (a0 a1 : JsVal),
        hashBranch (hashBranch st n a0 a1).2 n (hashBranch st n a0 a1).1 a1 =
          hashBranch st n a0 a1) ∧
    (∀ (st : HookState) (n : Nat) (a0 : JsVal),
        callHookAnalysis (callHookAnalysis st n a0).2 n (callHookAnalysis st n a0).1 =
          callHookAnalysis st n a0) := by
  constructor
  · intro st n a0 a1
    cases g1 : (n == 2 && a0.truthy && a1.truthy && a0.typeofObject && a1.typeofObject) with
    | false => simp [hashBranch, g1]
    | true =>
      cases g2 : ((getProto a0).truthy && hasOwnB (getProto a0) "$super" &&
          hasOwnB (getProto a0) "_doFinalize") with
      | false => simp [hashBranch, g1, g2]
      | true =>
        cases g3 : ((getProto (getProto a0)).truthy &&
            hasOwnB (getProto (getProto a0)) "finalize") with
        | false => simp [hashBranch, g1, g2, g3]
        | true =>
          cases g4 : nativeHas st (getProp (getProto (getProto a0)) "finalize") with
          | true =>
              have hrun := hashBranch_noop st n a0 a1 g4
              rw [hrun]
              exact hrun
          | false =>
              have hg2 := g2
              simp only [Bool.and_eq_true] at hg2
              obtain ⟨⟨h2a, h2b⟩, h2c⟩ := hg2
              obtain ⟨own, p, rfl⟩ := truthy_getProto_obj a0 h2a
              obtain ⟨own2, q, rfl⟩ := hasOwnB_obj_shape p "$super" rfl (by decide) h2b
              have hg3 := g3
              simp only [Bool.and_eq_true] at hg3
              obtain ⟨h3a, h3b⟩ := hg3
              obtain ⟨own3, p3, rfl⟩ := hasOwnB_obj_shape q "finalize" rfl (by decide) h3b
              have h1 : hashBranch st n
                  (.obj own (.obj own2 (.obj own3 p3))) a1 =
                  (.obj own (.obj own2 (.obj (setOwnProp own3 "finalize"
                      (.fnRet st.nextId hookFinalizeSrc .undefined)) p3)),
                   ⟨(st.nextId, getProp (.obj own3 p3) "finalize") :: st.reg,
                    st.nextId + 1⟩) := by
                unfold hashBranch
                rw [if_pos g1, if_pos g2, if_pos g3, if_neg (by simp [g4])]
                rfl
              rw [h1]
              refine hashBranch_noop _ n _ a1 ?_
              show nativeHas
                  ⟨(st.nextId, getProp (.obj own3 p3) "finalize") :: st.reg, st.nextId + 1⟩
                  (getProp (.obj (setOwnProp own3 "finalize"
                    (.fnRet st.nextId hookFinalizeSrc .undefined)) p3) "finalize") = true
              rw [getProp_obj_set_self own3 p3 "finalize" _ rfl (by simpa [hasOwnB] using h3b)]
              exact nativeHas_head _ _ _ _ _ _
  · intro st n a0
    cases g1 : (n == 1 && a0.truthy && (getProto a0).truthy && (getProto a0).typeofObject &&
        hasRSAProp (getProto a0)) with
    | false => simp [callHookAnalysis, g1]
    | true =>
      cases g2 : (protoMemberVisible (getProto a0) && (getProto (getProto a0)).truthy &&
          hasOwnB (getProto (getProto a0)) "encrypt" &&
          hasOwnB (getProto (getProto a0)) "decrypt") with
      | false => simp [callHookAnalysis, g1, g2]
      | true =>
        have hg1 := g1
        simp only [Bool.and_eq_true] at hg1
        obtain ⟨⟨⟨⟨h1a, h1b⟩, h1c⟩, h1d⟩, h1e⟩ := hg1
        have hg2 := g2
        simp only [Bool.and_eq_true] at hg2
        obtain ⟨⟨⟨h2a, h2b⟩, h2c⟩, h2d⟩ := hg2
        obtain ⟨own, p, rfl⟩ := truthy_getProto_obj a0 h1c
        obtain ⟨own2, q, rfl⟩ := truthy_getProto_obj p h2b
        obtain ⟨own3, p3, rfl⟩ := hasOwnB_obj_shape q "encrypt" rfl (by decide) h2c
        cases gE : nativeHas st (getProp (getProto (getProto
            (JsVal.obj own (.obj own2 (.obj own3 p3))))) "encrypt") with
        | true =>
          cases gD : nativeHas st (getProp (getProto (getProto
              (JsVal.obj own (.obj own2 (.obj own3 p3))))) "decrypt") with
          | true =>
              have hrun := callHook_noop st n (.obj own (.obj own2 (.obj own3 p3))) gE gD
              rw [hrun]
              exact hrun
          | false =>
              have hd : rsaPatchDecrypt st (.obj own (.obj own2 (.obj own3 p3))) =
                  (.obj own (.obj own2 (.obj (setOwnProp own3 "decrypt"
                      (.fnRet st.nextId decryptHookSrc .undefined)) p3)),
                   ⟨(st.nextId, getProp (.obj own3 p3) "decrypt") :: st.reg,
                    st.nextId + 1⟩) := by
                unfold rsaPatchDecrypt
                rw [if_neg (by simp [gD])]
                rfl
              have he : rsaPatchEncrypt st (.obj own (.obj own2 (.obj own3 p3))) =
                  (.obj own (.obj own2 (.obj own3 p3)), st) := by
                unfold rsaPatchEncrypt
                rw [if_pos gE]
              have hrun : callHookAnalysis st n (.obj own (.obj own2 (.obj own3 p3))) =
                  (.obj own (.obj own2 (.obj (setOwnProp own3 "decrypt"
                      (.fnRet st.nextId decryptHookSrc .undefined)) p3)),
                   ⟨(st.nextId, getProp (.obj own3 p3) "decrypt") :: st.reg,
                    st.nextId + 1⟩) := by
                unfold callHookAnalysis
                rw [if_pos g1, if_pos g2, he]
                exact hd
              rw [hrun]
              refine callHook_noop _ n _ ?_ ?_
              · show nativeHas
                  ⟨(st.nextId, getProp (.obj own3 p3) "decrypt") :: st.reg, st.nextId + 1⟩
                  (getProp (.obj (setOwnProp own3 "decrypt"
                    (.fnRet st.nextId decryptHookSrc .undefined)) p3) "encrypt") = true
                rw [getProp_obj_set_ne own3 p3 "decrypt" _ "encrypt" rfl]
                exact nativeHas_cons _ _ _ _ _ gE
              · show nativeHas
                  ⟨(st.nextId, getProp (.obj own3 p3) "decrypt") :: st.reg, st.nextId + 1⟩
                  (getProp (.obj (setOwnProp own3 "decrypt"
                    (.fnRet st.nextId decryptHookSrc .undefined)) p3) "decrypt") = true
                rw [getProp_obj_set_self own3 p3 "decrypt" _ rfl
                  (by simpa [hasOwnB] using h2d)]
                exact nativeHas_head _ _ _ _ _ _
        | false =>
          have he : rsaPatchEncrypt st (.obj own (.obj own2 (.obj own3 p3))) =
              (.obj own (.obj own2 (.obj (setOwnProp own3 "encrypt"
                  (.fnRet st.nextId encryptHookSrc .undefined)) p3)),
               ⟨(st.nextId, getProp (.obj own3 p3) "encrypt") :: st.reg,
                st.nextId + 1⟩) := by
            unfold rsaPatchEncrypt
            rw [if_neg (by simp [gE])]
            rfl
          cases gD2 : nativeHas
              ⟨(st.nextId, getProp (.obj own3 p3) "encrypt") :: st.reg, st.nextId + 1⟩
              (getProp (getProto (getProto (JsVal.obj own (.obj own2
                (.obj (setOwnProp own3 "encrypt"
                  (.fnRet st.nextId encryptHookSrc .undefined)) p3))))) "decrypt") with
          | true =>
              have hd : rsaPatchDecrypt
                  ⟨(st.nextId, getProp (.obj own3 p3) "encrypt") :: st.reg, st.nextId + 1⟩
                  (.obj own (.obj own2 (.obj (setOwnProp own3 "encrypt"
                      (.fnRet st.nextId encryptHookSrc .undefined)) p3))) =
                  (.obj own (.obj own2 (.obj (setOwnProp own3 "encrypt"
                      (.fnRet st.nextId encryptHookSrc .undefined)) p3)),
                   ⟨(st.nextId, getProp (.obj own3 p3) "encrypt") :: st.reg,
                    st.nextId + 1⟩) := by
                unfold rsaPatchDecrypt
                rw [if_pos gD2]
              have hrun : callHookAnalysis st n (.obj own (.obj own2 (.obj own3 p3))) =
                  (.obj own (.obj own2 (.obj (setOwnProp own3 "encrypt"
                      (.fnRet st.nextId encryptHookSrc .undefined)) p3)),
                   ⟨(st.nextId, getProp (.obj own3 p3) "encrypt") :: st.reg,
                    st.nextId + 1⟩) := by
                unfold callHookAnalysis
                rw [if_pos g1, if_pos g2, he]
                exact hd
              rw [hrun]
              refine callHook_noop _ n _ ?_ ?_
              · show nativeHas
                  ⟨(st.nextId, getProp (.obj own3 p3) "encrypt") :: st.reg, st.nextId + 1⟩
                  (getProp (.obj (setOwnProp own3 "encrypt"
                    (.fnRet st.nextId encryptHookSrc .undefined)) p3) "encrypt") = true
                rw [getProp_obj_set_self own3 p3 "encrypt" _ rfl
                  (by simpa [hasOwnB] using h2c)]
                exact nativeHas_head _ _ _ _ _ _
              · exact gD2
          | false =>
              have hd : rsaPatchDecrypt
                  ⟨(st.nextId, getProp (.obj own3 p3) "encrypt") :: st.reg, st.nextId + 1⟩
                  (.obj own (.obj own2 (.obj (setOwnProp own3 "encrypt"
                      (.fnRet st.nextId encryptHookSrc .undefined)) p3))) =
                  (.obj own (.obj own2 (.obj (setOwnProp (setOwnProp own3 "encrypt"
                      (.fnRet st.nextId encryptHookSrc .undefined)) "decrypt"
                      (.fnRet (st.nextId + 1) decryptHookSrc .undefined)) p3)),
                   ⟨(st.nextId + 1, getProp (.obj (setOwnProp own3 "encrypt"
                        (.fnRet st.nextId encryptHookSrc .undefined)) p3) "decrypt") ::
                      (st.nextId, getProp (.obj own3 p3) "encrypt") :: st.reg,
                    st.nextId + 2⟩) := by
                unfold rsaPatchDecrypt
                rw [if_neg (by simp [gD2])]
                rfl
              have hrun : callHookAnalysis st n (.obj own (.obj own2 (.obj own3 p3))) =
                  (.obj own (.obj own2 (.obj (setOwnProp (setOwnProp own3 "encrypt"
                      (.fnRet st.nextId encryptHookSrc .undefined)) "decrypt"
                      (.fnRet (st.nextId + 1) decryptHookSrc .undefined)) p3)),
                   ⟨(st.nextId + 1, getProp (.obj (setOwnProp own3 "encrypt"
                        (.fnRet st.nextId encryptHookSrc .undefined)) p3) "decrypt") ::
                      (st.nextId, getProp (.obj own3 p3) "encrypt") :: st.reg,
                    st.nextId + 2⟩) := by
                unfold callHookAnalysis
                rw [if_pos g1, if_pos g2, he]
                exact hd
              rw [hrun]
              refine callHook_noop _ n _ ?_ ?_
              · show nativeHas
                  ⟨(st.nextId + 1, getProp (.obj (setOwnProp own3 "encrypt"
                      (.fnRet st.nextId encryptHookSrc .undefined)) p3) "decrypt") ::
                    (st.nextId, getProp (.obj own3 p3) "encrypt") :: st.reg, st.nextId + 2⟩
                  (getProp (.obj (setOwnProp (setOwnProp own3 "encrypt"
                    (.fnRet st.nextId encryptHookSrc .undefined)) "decrypt"
                    (.fnRet (st.nextId + 1) decryptHookSrc .undefined)) p3) "encrypt") = true
                rw [getProp_obj_set_ne _ p3 "decrypt" _ "encrypt" rfl,
                  getProp_obj_set_self own3 p3 "encrypt" _ rfl
                    (by simpa [hasOwnB] using h2c)]
                exact nativeHas_cons _ st.nextId _ _ _ (nativeHas_head _ _ _ _ _ _)
              · show nativeHas
                  ⟨(st.nextId + 1, getProp (.obj (setOwnProp own3 "encrypt"
                      (.fnRet st.nextId encryptHookSrc .undefined)) p3) "decrypt") ::
                    (st.nextId, getProp (.obj own3 p3) "encrypt") :: st.reg, st.nextId + 2⟩
                  (getProp (.obj (setOwnProp (setOwnProp own3 "encrypt"
                    (.fnRet st.nextId encryptHookSrc .undefined)) "decrypt"
                    (.fnRet (st.nextId + 1) decryptHookSrc .undefined)) p3) "decrypt") = true
                rw [getProp_obj_set_self (setOwnProp own3 "encrypt"
                    (.fnRet st.nextId encryptHookSrc .undefined)) p3 "decrypt" _ rfl
                  (by rw [getOwn_setOwnProp_isSome]; simpa [hasOwnB] using h2d)]
                exact nativeHas_head _ _ _ _ _ _

end JsHook
